import Mathlib

/-
Verification of the grunt feed-aggregation backend's core:
identifier scheme (src/types.rs), repository operations (src/repo.rs),
and the ingestion pipeline (src/refresh.rs), shallowly embedded in Lean.

Strings are modelled as their byte sequences (`List Nat`, each < 256),
matching the Rust code which operates on `str::as_bytes()`.
Timestamps are `Int` unix seconds (`OffsetDateTime::unix_timestamp`, an i64).
-/

namespace Grunt

abbrev ByteStr := List Nat

/-- Fletcher-16 accumulator step; models one iteration of the `for byte in
bytes` loop in `fletcher16` (src/types.rs:146-155): `sum1 = (sum1 + byte) % 255;
sum2 = (sum2 + sum1) % 255`. -/
def fletcher16_step (s : Nat × Nat) (b : Nat) : Nat × Nat :=
  ((s.1 + b) % 255, (s.2 + (s.1 + b) % 255) % 255)

/-- The two accumulators after folding the whole byte string, starting from
`sum1 = 0, sum2 = 0` (src/types.rs:147-153). -/
def fletcher16_sums (bytes : ByteStr) : Nat × Nat :=
  bytes.foldl fletcher16_step (0, 0)

/-- Function `fletcher16` from src/types.rs:146-155: returns `(sum2 << 8) | sum1`. -/
def fletcher16 (bytes : ByteStr) : Nat :=
  ((fletcher16_sums bytes).2 <<< 8) ||| (fletcher16_sums bytes).1

/-- The publish-time bucket placed in the id's first four bytes
(src/types.rs:140): `(date.unix_timestamp() / 1000) as u32`.  Rust `/` on i64
truncates toward zero (`Int.tdiv`), and `as u32` keeps the low 32 bits
(two's complement, i.e. the value modulo 2^32). -/
def date_bucket (ts : Int) : Nat :=
  (Int.emod (Int.tdiv ts 1000) 4294967296).toNat

/-- Big-endian byte decomposition of a 32-bit value, `u32::to_be_bytes`. -/
def be_bytes_4 (n : Nat) : ByteStr :=
  [n / 16777216 % 256, n / 65536 % 256, n / 256 % 256, n % 256]

/-- Big-endian byte decomposition of a 16-bit value, `u16::to_be_bytes`. -/
def be_bytes_2 (n : Nat) : ByteStr :=
  [n / 256 % 256, n % 256]

/-- The 8-byte buffer assembled by `EntryId::from_ident_and_date`
(src/types.rs:139-141): `bytes[0..4]` holds the big-endian bucket,
`bytes[4..6]` the big-endian Fletcher-16 checksum of the identity, and
`bytes[6..8]` stay zero. -/
def entry_id_bytes (ident : ByteStr) (published : Int) : ByteStr :=
  be_bytes_4 (date_bucket published) ++ be_bytes_2 (fletcher16 ident) ++ [0, 0]

/-- Read a byte list as a big-endian unsigned integer (`u64::from_be_bytes`). -/
def read_be (bytes : ByteStr) : Nat :=
  bytes.foldl (fun acc b => acc * 256 + b) 0

/-- Read a byte list as a little-endian unsigned integer (`u64::from_le_bytes`). -/
def read_le (bytes : ByteStr) : Nat :=
  read_be bytes.reverse

/-- Function `EntryId::from_ident_and_date` (src/types.rs:138-143).  The source ends
with `u64::from_ne_bytes(bytes)`: the byte buffer is read back in *native*
byte order.  On the little-endian machines this server targets (x86-64,
aarch64) that is `u64::from_le_bytes`, which this definition models; the
platform-independent part of the derivation is `entry_id_bytes`. -/
def EntryId.from_ident_and_date (name : ByteStr) (date : Int) : Nat :=
  read_le (entry_id_bytes name date)

/-! Reference definitions transcribed from the spec's own words (§4.1),
kept separate from the source-derived ones so the two can be compared. -/

/-- Modelled from the spec: "sum1 = (sum1 + byte) mod 255, sum2 =
(sum2 + sum1) mod 255 over every byte, final checksum = (sum2 << 8) | sum1"
(spec §4.1 step 3), written as a plain recursion over the byte string. -/
def spec_fletcher16_go (s1 s2 : Nat) : ByteStr → Nat × Nat
  | [] => (s1, s2)
  | b :: rest => spec_fletcher16_go ((s1 + b) % 255) ((s2 + (s1 + b) % 255) % 255) rest

/-- Modelled from the spec: the reference Fletcher-16 checksum (spec §4.1). -/
def spec_fletcher16 (bytes : ByteStr) : Nat :=
  ((spec_fletcher16_go 0 0 bytes).2 <<< 8) ||| (spec_fletcher16_go 0 0 bytes).1

/-- Modelled from the spec: the reference 8-byte layout (spec §4.1 steps 4-5):
most-significant 4 bytes are the big-endian `published_unix_seconds / 1000`
truncated to 32 bits, next 2 bytes the checksum, last 2 bytes zero. -/
def spec_entry_id_bytes (ident : ByteStr) (published : Int) : ByteStr :=
  be_bytes_4 ((Int.emod (Int.tdiv published 1000) 4294967296).toNat) ++
    be_bytes_2 (spec_fletcher16 ident) ++ [0, 0]

/-- Modelled from the spec: "The resulting 8-byte big-endian value, read as an
unsigned 64-bit integer, is entry_id" (spec §4.1 step 6). -/
def spec_entry_id (ident : ByteStr) (published : Int) : Nat :=
  read_be (spec_entry_id_bytes ident published)

/-! Feed data model, as consumed by src/types.rs (the `rsst` item shape:
guid/link/description/author/pub_date/content/content_encoded and a list of
media attachments, each with optional url, MIME type and medium). -/

inductive ContentMedium
  | image
  | audio
  | video
  | document
  | executable
  deriving DecidableEq, Repr

structure MediaContent where
  url : Option ByteStr
  mime_type : Option ByteStr
  medium : Option ContentMedium
  deriving DecidableEq, Repr

structure Guid where
  value : ByteStr
  is_perma_link : Bool
  deriving DecidableEq, Repr

structure Item where
  title : Option ByteStr
  link : Option ByteStr
  description : Option ByteStr
  author : Option ByteStr
  guid : Option Guid
  pub_date : Option Int
  content : Option ByteStr
  content_encoded : Option ByteStr
  media : List MediaContent
  deriving DecidableEq, Repr

structure Channel where
  title : ByteStr
  link : ByteStr
  description : ByteStr
  language : Option ByteStr
  items : List Item
  deriving DecidableEq, Repr

structure Feed where
  channel : Channel
  deriving DecidableEq, Repr

structure Image where
  url : ByteStr
  deriving DecidableEq, Repr

/-- Type `Tagging` from src/types.rs:98-103. -/
structure Tagging where
  id : Nat
  feed_id : Nat
  name : ByteStr
  deriving DecidableEq, Repr

/-- Type `Entry` from src/types.rs:40-56; ids are the derived u64 values. -/
structure Entry where
  id : Nat
  feed_id : Nat
  title : Option ByteStr
  url : Option ByteStr
  extracted_content_url : Option ByteStr
  author : Option ByteStr
  content : Option ByteStr
  summary : Option ByteStr
  published : Int
  created_at : Int
  image : Option Image
  deriving DecidableEq, Repr

/-- The ASCII bytes of the literal "image/" the code matches MIME types
against (src/types.rs:74). -/
def image_slash : ByteStr := [105, 109, 97, 103, 101, 47]

/-- Boolean prefix test on byte strings (`str::starts_with`). -/
def bytes_leading : ByteStr → ByteStr → Bool
  | [], _ => true
  | _ :: _, [] => false
  | a :: ps, b :: ss => a == b && bytes_leading ps ss

/-- The media filter inside `Entry::from_item` (src/types.rs:72-75):
`media.medium == Some(ContentMedium::Image) ||
 media.mime_type.filter(|str| str.starts_with("image/")).is_some()`. -/
def media_is_image (m : MediaContent) : Bool :=
  m.medium == some ContentMedium.image ||
    (m.mime_type.filter (fun s => bytes_leading image_slash s)).isSome

/-- Function `Entry::from_item` (src/types.rs:59-95).  `created_at` is the caller's
wall-clock reading (`OffsetDateTime::now_utc()`), passed in as data. -/
def Entry.from_item (feed_id : Nat) (item : Item) (created_at : Int) : Option Entry :=
  match (item.guid.map (fun g => g.value)).orElse (fun _ => item.link) with
  | none => none
  | some ident =>
    let published := item.pub_date.getD 0
    let id := EntryId.from_ident_and_date ident published
    let content := item.content_encoded.orElse (fun _ => item.content)
    let image :=
      (item.media.findSome? (fun m => m.url.filter (fun _ => media_is_image m))).map
        Image.mk
    some
      { id
        feed_id
        title := item.title
        url := item.link
        extracted_content_url := none
        author := item.author
        content
        summary := item.description
        published
        created_at
        image }

/-! Storage model.  A sled tree is an association list ordered by strictly
ascending key (`SortedKeys`); `tree_get`/`tree_insert`/`tree_remove` model the
point operations, with `tree_insert` returning the map whose prior value at
the key the caller inspects separately via `tree_get`. -/

def tree_get (k : Nat) : List (Nat × α) → Option α
  | [] => none
  | (k', v') :: rest => if k = k' then some v' else tree_get k rest

def tree_insert (k : Nat) (v : α) : List (Nat × α) → List (Nat × α)
  | [] => [(k, v)]
  | (k', v') :: rest =>
    if k < k' then (k, v) :: (k', v') :: rest
    else if k = k' then (k, v) :: rest
    else (k', v') :: tree_insert k v rest

def tree_remove (k : Nat) : List (Nat × α) → List (Nat × α)
  | [] => []
  | (k', v') :: rest => if k = k' then rest else (k', v') :: tree_remove k rest

/-- The sled invariant: keys appear in strictly ascending byte order, hence
pairwise distinct. -/
def SortedKeys (l : List (Nat × α)) : Prop :=
  l.Pairwise (fun p q => p.1 < q.1)

/-- Type `Repo` (src/repo.rs:8-15) restricted to the collections the verified
operations touch.  `unread` and `starred` are trees with unit values, exactly
as in the source (`TreeEntry` with `Val = ()`). -/
structure Repo where
  unread : List (Nat × Unit)
  starred : List (Nat × Unit)
  entries : List (Nat × Entry)
  taggings : List (Nat × Tagging)
  deriving DecidableEq, Repr

/-- Operation `Repo::insert_entry` (src/repo.rs:140-148): inside one transaction over
`(entries, unread)`, insert the entry keyed by its id; if the insert reports
no prior value at that key, also insert the id into `unread`.  The sled
transaction makes the two writes atomic; in this sequential model that is
plain sequencing, and `insert` returning the prior value is read off with
`tree_get` before the write. -/
def Repo.insert_entry (s : Repo) (entry : Entry) : Repo :=
  let prior := tree_get entry.id s.entries
  { s with
    entries := tree_insert entry.id entry s.entries
    unread := if prior.isNone then tree_insert entry.id () s.unread else s.unread }

/-- Operation `Repo::get_feeds_by_tags` (src/repo.rs:173-183): scan all taggings and
collect the feed id of every tagging whose name equals one of `tags`. -/
def Repo.get_feeds_by_tags (s : Repo) (tags : List ByteStr) : List Nat :=
  ((s.taggings.map Prod.snd).filter (fun tagging => tags.any (fun str => str == tagging.name))).map
    Tagging.feed_id

/-- Operation `Repo::get_entries` (src/repo.rs:76-106): iterate `entries` values in key
order, reversed; with tags, keep only entries whose feed id is in the tag
feed set; then `skip(per_page * (page.max(1) - 1))` and `take(per_page)`. -/
def Repo.get_entries (s : Repo) (page per_page : Nat) (tags : List ByteStr) : List Entry :=
  if !tags.isEmpty then
    let feeds := s.get_feeds_by_tags tags
    ((((s.entries.map Prod.snd).reverse.filter (fun entry => feeds.contains entry.feed_id)).drop
        (per_page * (max page 1 - 1))).take per_page)
  else
    (((s.entries.map Prod.snd).reverse.drop (per_page * (max page 1 - 1))).take per_page)

/-- Operation `Repo::get_starred_entries` (src/repo.rs:108-120): iterate `starred` keys
reversed, `skip`/`take` as in `get_entries`, look each id up in `entries`, and
drop the ids whose lookup found nothing (`filter_map(Result::transpose)` drops
the `Ok(None)` results). -/
def Repo.get_starred_entries (s : Repo) (page per_page : Nat) : List Entry :=
  ((((s.starred.map Prod.fst).reverse.drop (per_page * (max page 1 - 1))).take per_page).filterMap
    (fun k => tree_get k s.entries))

/-- Function `refresh_feed` (src/refresh.rs:29-37): for every item of the parsed feed,
build an entry with `Entry::from_item` and insert it; items without an
identity yield `None` and are skipped.  `created_at` is the single
`OffsetDateTime::now_utc()` reading taken at the top of the function. -/
def refresh_feed (s : Repo) (id : Nat) (feed : Feed) (created_at : Int) : Repo :=
  feed.channel.items.foldl
    (fun st item =>
      match Entry.from_item id item created_at with
      | some entry => st.insert_entry entry
      | none => st) s

/-- One awaited fetch+parse outcome for a subscription, as consumed by the
result loop of `refresh_all_feeds` (src/refresh.rs:18-23): either a feed id
with its parsed feed, or a fetch/parse error (whose message is only logged). -/
inductive FetchOutcome
  | ok (feed_id : Nat) (feed : Feed)
  | fetchFailed
  deriving DecidableEq, Repr

/-- The result loop of `refresh_all_feeds` (src/refresh.rs:18-23): after
`join_all`, each `Ok` result is ingested with `refresh_feed` and each `Err`
is logged and skipped.  The concurrent fan-out is abstracted to the list of
awaited outcomes, in subscription order, and the wall clock to `now`. -/
def refresh_all_feeds (s : Repo) (results : List FetchOutcome) (now : Int) : Repo :=
  results.foldl
    (fun st r =>
      match r with
      | .ok feed_id feed => refresh_feed st feed_id feed now
      | .fetchFailed => st) s

/-- Number of rows stored under a key. -/
def key_count (k : Nat) (l : List (Nat × α)) : Nat :=
  (l.filter (fun p => p.1 == k)).length

/-- The reverse-chronological scan underlying `Repo::get_entries`: values in
reverse key order, filtered by the tag feed set when tags are given. -/
def entry_scan (s : Repo) (tags : List ByteStr) : List Entry :=
  if tags.isEmpty then (s.entries.map Prod.snd).reverse
  else (s.entries.map Prod.snd).reverse.filter
    (fun entry => (s.get_feeds_by_tags tags).contains entry.feed_id)

/-- The page window of starred ids that `Repo::get_starred_entries` resolves:
starred keys in reverse key order, after skip and take. -/
def starred_window (s : Repo) (page per_page : Nat) : List Nat :=
  ((s.starred.map Prod.fst).reverse.drop (per_page * (max page 1 - 1))).take per_page

/-- The identity `Entry::from_item` derives (src/types.rs:60): guid text when
present, else the link. -/
def ident_of (item : Item) : Option ByteStr :=
  (item.guid.map (fun g => g.value)).orElse (fun _ => item.link)

/-! Concrete fixtures used to instantiate the theorems. -/

def empty_repo : Repo :=
  { unread := [], starred := [], entries := [], taggings := [] }

def entry0 : Entry :=
  { id := 5, feed_id := 1, title := none, url := none, extracted_content_url := none,
    author := none, content := none, summary := none, published := 0, created_at := 0,
    image := none }

def entry6 : Entry :=
  { entry0 with id := 6 }

def repo1 : Repo :=
  empty_repo.insert_entry entry0

def repo2 : Repo :=
  { unread := [], starred := [(5, ()), (6, ())],
    entries := [(5, entry0), (6, entry6)], taggings := [] }

/-- An item carrying a guid ("a"), a link ("h"), a publish date, and nothing
else. -/
def item_a : Item :=
  { title := none, link := some [104], description := none, author := none,
    guid := some { value := [97], is_perma_link := false }, pub_date := some 0,
    content := none, content_encoded := none, media := [] }

def feed_a : Feed :=
  { channel := { title := [], link := [], description := [], language := none,
                 items := [item_a] } }

/-- An item with both a plain content field ("A") and an encoded content
field ("B"), plus a description ("D") and an image attachment. -/
def item_rich : Item :=
  { title := none, link := some [104], description := some [68], author := none,
    guid := some { value := [97], is_perma_link := false }, pub_date := some 0,
    content := some [65], content_encoded := some [66],
    media := [{ url := some [117], mime_type := some image_slash, medium := none }] }

/-- An item whose only body text is its description ("D"). -/
def item_desc : Item :=
  { title := none, link := some [104], description := some [68], author := none,
    guid := some { value := [97], is_perma_link := false }, pub_date := some 0,
    content := none, content_encoded := none, media := [] }

/-- The entry `Entry::from_item` builds from `item_rich`. -/
def entry_rich : Entry :=
  (Entry.from_item 1 item_rich 0).getD entry0

/-! Facts about the identifier derivation and the tree model. -/

theorem fletcher16_sums_fst_lt (l : ByteStr) (s : Nat × Nat)
    (h1 : s.1 < 255) (h2 : s.2 < 255) :
    (l.foldl fletcher16_step s).1 < 255 ∧ (l.foldl fletcher16_step s).2 < 255 := by
  induction l generalizing s with
  | nil => exact ⟨h1, h2⟩
  | cons b rest ih =>
      exact ih _ (Nat.mod_lt _ (by decide)) (Nat.mod_lt _ (by decide))

theorem fletcher16_lt (bytes : ByteStr) : fletcher16 bytes < 2 ^ 16 := by
  have h := fletcher16_sums_fst_lt bytes (0, 0) (by decide) (by decide)
  have h1 : (fletcher16_sums bytes).1 < 2 ^ 8 :=
    lt_trans h.1 (by decide)
  have h2 : (fletcher16_sums bytes).2 < 2 ^ 8 :=
    lt_trans h.2 (by decide)
  exact Nat.append_lt h1 h2

theorem date_bucket_lt (ts : Int) : date_bucket ts < 2 ^ 32 := by
  unfold date_bucket
  have h1 : 0 ≤ Int.emod (Int.tdiv ts 1000) 4294967296 :=
    Int.emod_nonneg _ (by decide)
  have h2 : Int.emod (Int.tdiv ts 1000) 4294967296 < 4294967296 :=
    Int.emod_lt_of_pos _ (by decide)
  omega

theorem read_be_entry_id_bytes (ident : ByteStr) (ts : Int) :
    read_be (entry_id_bytes ident ts) =
      date_bucket ts * 2 ^ 32 + fletcher16 ident * 2 ^ 16 := by
  have hb := date_bucket_lt ts
  have hc := fletcher16_lt ident
  simp only [read_be, entry_id_bytes, be_bytes_4, be_bytes_2, List.append_assoc,
    List.cons_append, List.nil_append, List.foldl_cons, List.foldl_nil]
  omega

theorem read_le_layout (n c : Nat) (hb : n < 2 ^ 32) (hc : c < 2 ^ 16) :
    read_le (be_bytes_4 n ++ be_bytes_2 c ++ [0, 0]) =
      c % 256 * 2 ^ 40 + c / 256 * 2 ^ 32 + n % 256 * 2 ^ 24 +
        n / 256 % 256 * 2 ^ 16 + n / 65536 % 256 * 2 ^ 8 + n / 16777216 := by
  have e1 : n / 256 / 256 = n / 65536 := by rw [Nat.div_div_eq_div_mul]
  have e2 : n / 65536 / 256 = n / 16777216 := by rw [Nat.div_div_eq_div_mul]
  have e3 : n / 16777216 / 256 = n / 4294967296 := by rw [Nat.div_div_eq_div_mul]
  have e4 : c / 256 / 256 = c / 65536 := by rw [Nat.div_div_eq_div_mul]
  simp only [read_le, read_be, be_bytes_4, be_bytes_2,
    List.append_assoc, List.cons_append, List.nil_append, List.reverse_append,
    List.reverse_cons, List.reverse_nil, List.foldl_cons, List.foldl_nil]
  omega

theorem read_le_entry_id_bytes (ident : ByteStr) (ts : Int) :
    read_le (entry_id_bytes ident ts) =
      fletcher16 ident % 256 * 2 ^ 40 + fletcher16 ident / 256 * 2 ^ 32 +
        date_bucket ts % 256 * 2 ^ 24 + date_bucket ts / 256 % 256 * 2 ^ 16 +
        date_bucket ts / 65536 % 256 * 2 ^ 8 + date_bucket ts / 16777216 :=
  read_le_layout (date_bucket ts) (fletcher16 ident)
    (date_bucket_lt ts) (fletcher16_lt ident)

theorem key_count_cons (k a : Nat) (b : α) (l : List (Nat × α)) :
    key_count k ((a, b) :: l) = (if a = k then 1 else 0) + key_count k l := by
  by_cases h : a = k <;> simp [key_count, List.filter_cons, h, Nat.add_comm]

theorem tree_get_insert_self (k : Nat) (v : α) (l : List (Nat × α)) :
    tree_get k (tree_insert k v l) = some v := by
  induction l with
  | nil => simp [tree_insert, tree_get]
  | cons p rest ih =>
    obtain ⟨a, b⟩ := p
    by_cases h1 : k < a
    · simp [tree_insert, h1, tree_get]
    · by_cases h2 : k = a
      · simp [tree_insert, h1, h2, tree_get]
      · simp [tree_insert, h1, h2, tree_get, ih]

theorem tree_get_insert_ne (k k' : Nat) (hne : k' ≠ k) (v : α) (l : List (Nat × α)) :
    tree_get k' (tree_insert k v l) = tree_get k' l := by
  induction l with
  | nil => simp [tree_insert, tree_get, hne]
  | cons p rest ih =>
    obtain ⟨a, b⟩ := p
    by_cases h1 : k < a
    · by_cases h3 : k' = a
      · subst h3; simp [tree_insert, h1, tree_get, hne]
      · simp [tree_insert, h1, tree_get, hne, h3]
    · by_cases h2 : k = a
      · subst h2; simp [tree_insert, h1, tree_get, hne]
      · by_cases h3 : k' = a <;> simp [tree_insert, h1, h2, tree_get, h3, ih]

theorem tree_insert_idem (k : Nat) (v : α) (l : List (Nat × α)) :
    tree_insert k v (tree_insert k v l) = tree_insert k v l := by
  induction l with
  | nil => simp [tree_insert]
  | cons p rest ih =>
    obtain ⟨a, b⟩ := p
    by_cases h1 : k < a
    · simp [tree_insert, h1, Nat.lt_irrefl]
    · by_cases h2 : k = a
      · simp [tree_insert, h1, h2, Nat.lt_irrefl]
      · simp [tree_insert, h1, h2, ih]

theorem mem_tree_insert (k : Nat) (v : α) (l : List (Nat × α)) (p : Nat × α)
    (h : p ∈ tree_insert k v l) : p = (k, v) ∨ p ∈ l := by
  induction l with
  | nil => simpa [tree_insert] using h
  | cons q rest ih =>
    obtain ⟨a, b⟩ := q
    by_cases h1 : k < a
    · simp only [tree_insert, if_pos h1] at h
      rcases List.mem_cons.mp h with rfl | h
      · exact Or.inl rfl
      · exact Or.inr h
    · by_cases h2 : k = a
      · simp only [tree_insert, if_neg h1, if_pos h2] at h
        rcases List.mem_cons.mp h with rfl | h
        · exact Or.inl rfl
        · exact Or.inr (List.mem_cons_of_mem _ h)
      · simp only [tree_insert, if_neg h1, if_neg h2] at h
        rcases List.mem_cons.mp h with rfl | h
        · exact Or.inr (List.mem_cons_self _ _)
        · rcases ih h with rfl | h
          · exact Or.inl rfl
          · exact Or.inr (List.mem_cons_of_mem _ h)

theorem sortedKeys_tree_insert (k : Nat) (v : α) (l : List (Nat × α))
    (h : SortedKeys l) : SortedKeys (tree_insert k v l) := by
  induction l with
  | nil => simp [tree_insert, SortedKeys]
  | cons p rest ih =>
    obtain ⟨a, b⟩ := p
    rw [SortedKeys, List.pairwise_cons] at h
    obtain ⟨hall, hrest⟩ := h
    by_cases h1 : k < a
    · rw [SortedKeys]
      simp only [tree_insert, if_pos h1]
      rw [List.pairwise_cons]
      refine ⟨?_, ?_⟩
      · intro q hq
        rcases List.mem_cons.mp hq with rfl | hq
        · exact h1
        · exact lt_trans h1 (hall q hq)
      · rw [List.pairwise_cons]
        exact ⟨hall, hrest⟩
    · by_cases h2 : k = a
      · rw [SortedKeys]
        simp only [tree_insert, if_neg h1, if_pos h2]
        rw [List.pairwise_cons]
        exact ⟨fun q hq => h2 ▸ hall q hq, hrest⟩
      · rw [SortedKeys]
        simp only [tree_insert, if_neg h1, if_neg h2]
        rw [List.pairwise_cons]
        refine ⟨?_, ih hrest⟩
        intro q hq
        rcases mem_tree_insert _ _ _ _ hq with rfl | hq
        · omega
        · exact hall q hq

theorem key_count_eq_zero (k : Nat) (l : List (Nat × α))
    (h : ∀ p ∈ l, p.1 ≠ k) : key_count k l = 0 := by
  induction l with
  | nil => rfl
  | cons p rest ih =>
    obtain ⟨a, b⟩ := p
    rw [key_count_cons]
    have ha : a ≠ k := h (a, b) (List.mem_cons_self _ _)
    rw [if_neg ha, ih (fun q hq => h q (List.mem_cons_of_mem _ hq))]

theorem key_count_tree_insert (k : Nat) (v : α) (l : List (Nat × α))
    (h : SortedKeys l) : key_count k (tree_insert k v l) = 1 := by
  induction l with
  | nil => simp [tree_insert, key_count]
  | cons p rest ih =>
    obtain ⟨a, b⟩ := p
    rw [SortedKeys, List.pairwise_cons] at h
    obtain ⟨hall, hrest⟩ := h
    by_cases h1 : k < a
    · simp only [tree_insert, if_pos h1]
      rw [key_count_cons, if_pos rfl, key_count_cons, if_neg (by omega),
        key_count_eq_zero k rest (fun q hq => by have := hall q hq; omega)]
    · by_cases h2 : k = a
      · simp only [tree_insert, if_neg h1, if_pos h2]
        rw [key_count_cons, if_pos rfl,
          key_count_eq_zero k rest (fun q hq => by have := hall q hq; omega)]
      · simp only [tree_insert, if_neg h1, if_neg h2]
        rw [key_count_cons, if_neg (fun hh => h2 hh.symm), ih hrest]

theorem tree_get_eq_none_of_gt (k : Nat) (l : List (Nat × α))
    (h : ∀ p ∈ l, k < p.1) : tree_get k l = none := by
  induction l with
  | nil => rfl
  | cons p rest ih =>
    obtain ⟨a, b⟩ := p
    have ha := h (a, b) (List.mem_cons_self _ _)
    simp only [tree_get, if_neg (by omega : ¬k = a)]
    exact ih (fun q hq => h q (List.mem_cons_of_mem _ hq))

theorem tree_get_remove_self (k : Nat) (l : List (Nat × α))
    (h : SortedKeys l) : tree_get k (tree_remove k l) = none := by
  induction l with
  | nil => rfl
  | cons p rest ih =>
    obtain ⟨a, b⟩ := p
    rw [SortedKeys, List.pairwise_cons] at h
    obtain ⟨hall, hrest⟩ := h
    by_cases h1 : k = a
    · simp only [tree_remove, if_pos h1]
      subst h1
      exact tree_get_eq_none_of_gt k rest (fun q hq => hall q hq)
    · simp only [tree_remove, if_neg h1, tree_get, if_neg h1]
      exact ih hrest

theorem tree_get_remove_ne (k k' : Nat) (hne : k' ≠ k) (l : List (Nat × α)) :
    tree_get k' (tree_remove k l) = tree_get k' l := by
  induction l with
  | nil => rfl
  | cons p rest ih =>
    obtain ⟨a, b⟩ := p
    by_cases h1 : k = a
    · subst h1
      simp [tree_remove, tree_get, hne]
    · by_cases h3 : k' = a <;> simp [tree_remove, h1, tree_get, h3, ih]

theorem map_fst_tree_insert (k : Nat) (v : α) (l : List (Nat × α))
    (h : SortedKeys l) (hmem : tree_get k l ≠ none) :
    (tree_insert k v l).map Prod.fst = l.map Prod.fst := by
  induction l with
  | nil => exact absurd rfl hmem
  | cons p rest ih =>
    obtain ⟨a, b⟩ := p
    rw [SortedKeys, List.pairwise_cons] at h
    obtain ⟨hall, hrest⟩ := h
    by_cases h1 : k < a
    · exfalso
      apply hmem
      simp only [tree_get, if_neg (by omega : ¬k = a)]
      exact tree_get_eq_none_of_gt k rest (fun q hq => lt_trans h1 (hall q hq))
    · by_cases h2 : k = a
      · simp [tree_insert, h1, h2]
      · simp only [tree_get, if_neg h2] at hmem
        simp [tree_insert, h1, h2, ih hrest hmem]

theorem spec_fletcher16_go_eq (l : ByteStr) (s1 s2 : Nat) :
    spec_fletcher16_go s1 s2 l = l.foldl fletcher16_step (s1, s2) := by
  induction l generalizing s1 s2 with
  | nil => rfl
  | cons b rest ih => simp [spec_fletcher16_go, List.foldl_cons, fletcher16_step, ih]

theorem fletcher16_eq_spec (bytes : ByteStr) : fletcher16 bytes = spec_fletcher16 bytes := by
  unfold fletcher16 spec_fletcher16 fletcher16_sums
  rw [spec_fletcher16_go_eq]

/-! Claim theorems. -/

/-- Claim C1, counterexample.  The code reads the id buffer with
`u64::from_ne_bytes`, so on the little-endian hosts it runs on the timestamp
bucket lands in the *low* bytes of the numeric id and the checksum in higher
bytes: the item with identity "a" published in bucket 0 gets a numerically
*larger* id than the item with empty identity published in bucket 1, refuting
"ascending numeric order of entry_id is ascending chronological order". -/
theorem c1_numeric_order_counterexample :
    date_bucket 0 < date_bucket 1000 ∧
    ¬EntryId.from_ident_and_date [97] 0 < EntryId.from_ident_and_date [] 1000 := by
  decide

/-- Claim C1 (amended): chronological ordering holds for the 8-byte id buffer,
not for the code's native-endian numeric reading: if the publish-time buckets
are ordered, the buffers read big-endian (equivalently, compared in
lexicographic byte order, the order the storage engine iterates keys in) are
ordered the same way. -/
theorem c1_id_bytes_chronological (ident1 ident2 : ByteStr) (ts1 ts2 : Int)
    (h : date_bucket ts1 < date_bucket ts2) :
    read_be (entry_id_bytes ident1 ts1) < read_be (entry_id_bytes ident2 ts2) := by
  rw [read_be_entry_id_bytes, read_be_entry_id_bytes]
  have h1 := fletcher16_lt ident1
  have h2 := fletcher16_lt ident2
  omega

/-- Witness for C1's amended theorem at buckets 0 < 1. -/
theorem c1_id_bytes_chronological_witness :
    date_bucket 0 < date_bucket 1000 ∧
    read_be (entry_id_bytes [97] 0) < read_be (entry_id_bytes [] 1000) :=
  ⟨by decide, c1_id_bytes_chronological [97] [] 0 1000 (by decide)⟩

/-- Claim C3, counterexample.  The derived id does not equal the reference
definition's big-endian reading: for identity "a" at publish time 0 the code's
native-endian (little-endian) value differs from the spec's big-endian one. -/
theorem c3_endianness_counterexample :
    EntryId.from_ident_and_date [97] 0 ≠ spec_entry_id [97] 0 := by
  decide

/-- Claim C3 (amended): the code's derivation matches the reference definition
byte for byte — same Fletcher-16 checksum, same 8-byte layout (big-endian
bucket in bytes 0-3, checksum in bytes 4-5, zeros in bytes 6-7) — but the
final u64 is the buffer's native-endian reading (little-endian on the
deployment targets), not the big-endian reading the spec states. -/
theorem c3_id_matches_reference_buffer (ident : ByteStr) (ts : Int) :
    entry_id_bytes ident ts = spec_entry_id_bytes ident ts ∧
    EntryId.from_ident_and_date ident ts = read_le (spec_entry_id_bytes ident ts) := by
  have h : entry_id_bytes ident ts = spec_entry_id_bytes ident ts := by
    unfold entry_id_bytes spec_entry_id_bytes date_bucket
    rw [fletcher16_eq_spec]
  exact ⟨h, by unfold EntryId.from_ident_and_date; rw [h]⟩

/-- Claim C9, counterexample.  The 16-bit Fletcher checksum collides: the
empty identity and the one-NUL-byte identity are distinct strings with equal
checksums, so with equal publish times they derive the same entry id. -/
theorem c9_collision_counterexample :
    ([] : ByteStr) ≠ [0] ∧
    EntryId.from_ident_and_date [] 0 = EntryId.from_ident_and_date [0] 0 := by
  decide

/-- Claim C9 (amended): for a fixed publish-time bucket the derived ids are
distinct exactly when the identities' Fletcher-16 checksums are distinct; the
checksum has only 16 bits, so distinct identities can collide. -/
theorem c9_id_collision_iff_checksum (ident1 ident2 : ByteStr) (ts : Int) :
    EntryId.from_ident_and_date ident1 ts = EntryId.from_ident_and_date ident2 ts ↔
      fletcher16 ident1 = fletcher16 ident2 := by
  unfold EntryId.from_ident_and_date
  rw [read_le_entry_id_bytes, read_le_entry_id_bytes]
  have h1 := fletcher16_lt ident1
  have h2 := fletcher16_lt ident2
  constructor <;> (intro h; omega)

/-- Claim C2: `insert_entry` stores the entry under its id, adds the id to
`unread` exactly when no prior value existed at that key, and is idempotent:
a second call with the same entry changes nothing, leaving exactly one
entries row and (when the entry was new) exactly one unread membership. -/
theorem c2_insert_entry_idempotent (s : Repo) (e : Entry)
    (hs : SortedKeys s.entries) (hu : SortedKeys s.unread) :
    tree_get e.id (s.insert_entry e).entries = some e
    ∧ (tree_get e.id s.entries = none →
        tree_get e.id (s.insert_entry e).unread = some ())
    ∧ (tree_get e.id s.entries ≠ none → (s.insert_entry e).unread = s.unread)
    ∧ (s.insert_entry e).insert_entry e = s.insert_entry e
    ∧ key_count e.id ((s.insert_entry e).insert_entry e).entries = 1
    ∧ (tree_get e.id s.entries = none →
        key_count e.id ((s.insert_entry e).insert_entry e).unread = 1) := by
  refine ⟨?_, ?_, ?_, ?_, ?_, ?_⟩
  · simp [Repo.insert_entry, tree_get_insert_self]
  · intro h
    simp [Repo.insert_entry, h, tree_get_insert_self]
  · intro h
    have hf : (tree_get e.id s.entries).isNone = false := by
      cases hg : tree_get e.id s.entries
      · exact absurd hg h
      · rfl
    simp [Repo.insert_entry, hf]
  · simp [Repo.insert_entry, tree_get_insert_self, tree_insert_idem]
  · simp only [Repo.insert_entry, tree_get_insert_self]
    rw [tree_insert_idem]
    exact key_count_tree_insert e.id e s.entries hs
  · intro h
    simp only [Repo.insert_entry, tree_get_insert_self, h, Option.isNone_none,
      if_pos, Option.isNone_some, Bool.false_eq_true, if_false]
    exact key_count_tree_insert e.id () s.unread hu

/-- Witness for C2 on the empty repository. -/
theorem c2_insert_entry_idempotent_witness :
    tree_get entry0.id (empty_repo.insert_entry entry0).entries = some entry0
    ∧ tree_get entry0.id (empty_repo.insert_entry entry0).unread = some ()
    ∧ (empty_repo.insert_entry entry0).insert_entry entry0 = empty_repo.insert_entry entry0
    ∧ key_count entry0.id ((empty_repo.insert_entry entry0).insert_entry entry0).entries = 1
    ∧ key_count entry0.id ((empty_repo.insert_entry entry0).insert_entry entry0).unread = 1 := by
  have h := c2_insert_entry_idempotent empty_repo entry0
    (by rw [SortedKeys]; decide) (by rw [SortedKeys]; decide)
  exact ⟨h.1, h.2.1 (by decide), h.2.2.2.1, h.2.2.2.2.1, h.2.2.2.2.2 (by decide)⟩

/-- Claim C5, counterexample.  Re-ingesting the same item later is not a
no-op on the stored value: `insert_entry` writes the freshly built entry
unconditionally, so the second refresh replaces the row and its `created_at`
changes from the first refresh time (0) to the second one (1). -/
theorem c5_created_at_overwrite_counterexample :
    (tree_get (EntryId.from_ident_and_date [97] 0)
        (refresh_feed empty_repo 1 feed_a 0).entries).map Entry.created_at = some 0
    ∧ (tree_get (EntryId.from_ident_and_date [97] 0)
        (refresh_feed (refresh_feed empty_repo 1 feed_a 0) 1 feed_a 1).entries).map
          Entry.created_at = some 1 := by
  decide

/-- Claim C5 (amended): when the id already has a row, re-insertion leaves
the key set, the other rows, `unread` and `starred` unchanged, but replaces
the stored value with the newly built entry — so `created_at` is refreshed to
the latest ingestion time rather than preserved. -/
theorem c5_reinsert_overwrites_value (s : Repo) (e : Entry)
    (hs : SortedKeys s.entries) (h : tree_get e.id s.entries ≠ none) :
    tree_get e.id (s.insert_entry e).entries = some e
    ∧ (s.insert_entry e).unread = s.unread
    ∧ (s.insert_entry e).starred = s.starred
    ∧ (∀ k, k ≠ e.id → tree_get k (s.insert_entry e).entries = tree_get k s.entries)
    ∧ (s.insert_entry e).entries.map Prod.fst = s.entries.map Prod.fst := by
  have hf : (tree_get e.id s.entries).isNone = false := by
    cases hg : tree_get e.id s.entries
    · exact absurd hg h
    · rfl
  refine ⟨?_, ?_, ?_, ?_, ?_⟩
  · simp [Repo.insert_entry, tree_get_insert_self]
  · simp [Repo.insert_entry, hf]
  · simp [Repo.insert_entry]
  · intro k hk
    simp [Repo.insert_entry, tree_get_insert_ne _ _ hk]
  · simp only [Repo.insert_entry]
    exact map_fst_tree_insert e.id e s.entries hs h

/-- Witness for C5's amended theorem: re-inserting `entry0` with a later
`created_at` into a repository that already holds it. -/
theorem c5_reinsert_overwrites_value_witness :
    tree_get entry0.id (repo1.insert_entry { entry0 with created_at := 1 }).entries
      = some { entry0 with created_at := 1 }
    ∧ (repo1.insert_entry { entry0 with created_at := 1 }).unread = repo1.unread
    ∧ (repo1.insert_entry { entry0 with created_at := 1 }).starred = repo1.starred
    ∧ tree_get 7 (repo1.insert_entry { entry0 with created_at := 1 }).entries
        = tree_get 7 repo1.entries
    ∧ (repo1.insert_entry { entry0 with created_at := 1 }).entries.map Prod.fst
        = repo1.entries.map Prod.fst := by
  have h := c5_reinsert_overwrites_value repo1 { entry0 with created_at := 1 }
    (by rw [SortedKeys]; decide) (by decide)
  exact ⟨h.1, h.2.1, h.2.2.1, h.2.2.2.1 7 (by decide), h.2.2.2.2⟩

/-- Claim C4: item identity is the guid text when present, else the link; an
item with neither is skipped without error (`from_item` returns `none`); a
missing publish date falls back to unix time 0, never to the current time, so
the derived id does not depend on the `created_at` wall-clock argument. -/
theorem c4_from_item_identity (f : Nat) (item : Item) (t t' : Int) :
    (Entry.from_item f item t = none ↔ item.guid = none ∧ item.link = none)
    ∧ (Entry.from_item f item t).map Entry.id
        = (ident_of item).map
            (fun i => EntryId.from_ident_and_date i (item.pub_date.getD 0))
    ∧ (Entry.from_item f item t).map Entry.published
        = (ident_of item).map (fun _ => item.pub_date.getD 0)
    ∧ (Entry.from_item f item t).map Entry.id
        = (Entry.from_item f item t').map Entry.id := by
  unfold Entry.from_item ident_of
  cases hg : item.guid with
  | some g => simp [Option.orElse]
  | none =>
    cases hl : item.link with
    | some l => simp [Option.orElse]
    | none => simp [Option.orElse]

theorem find_image_eq_find (media : List MediaContent) :
    media.findSome? (fun m => m.url.filter (fun _ => media_is_image m))
      = (media.find? (fun m => m.url.isSome && media_is_image m)).bind
          MediaContent.url := by
  induction media with
  | nil => rfl
  | cons m rest ih =>
    cases hu : m.url with
    | none => simp [List.findSome?_cons, List.find?_cons, hu, Option.filter_none, ih]
    | some u =>
      cases hi : media_is_image m with
      | true => simp [List.findSome?_cons, List.find?_cons, hu, hi, Option.filter_some]
      | false => simp [List.findSome?_cons, List.find?_cons, hu, hi, Option.filter_some, ih]

/-- Claim C7, counterexample.  The code's content precedence is the reverse
of the claim: with both a plain content field ("A") and an encoded content
field ("B") present it stores the encoded one, and an item whose only body
text is a description gets `content = none` — the description goes to the
separate `summary` field, never to `content`. -/
theorem c7_content_precedence_counterexample :
    (Entry.from_item 1 item_rich 0).map Entry.content = some (some [66])
    ∧ item_rich.content = some [65]
    ∧ item_rich.content_encoded = some [66]
    ∧ (Entry.from_item 1 item_desc 0).map Entry.content = some none
    ∧ (Entry.from_item 1 item_desc 0).map Entry.summary = some (some [68])
    ∧ item_desc.description = some [68] := by
  decide

/-- Claim C7 (amended): the stored content is the encoded/extended content
field when present, else the plain content field; the description is stored
in the separate summary field; the image is the url of the first media
attachment that has a url and whose medium is "image" or whose MIME type
starts with "image/". -/
theorem c7_content_image_rule (f : Nat) (item : Item) (t : Int) (e : Entry)
    (h : Entry.from_item f item t = some e) :
    e.content = item.content_encoded.orElse (fun _ => item.content)
    ∧ (item.content_encoded = none → e.content = item.content)
    ∧ (∀ c, item.content_encoded = some c → e.content = some c)
    ∧ e.summary = item.description
    ∧ e.image = ((item.media.find? (fun m => m.url.isSome && media_is_image m)).bind
        MediaContent.url).map Image.mk := by
  unfold Entry.from_item at h
  cases hident : (item.guid.map (fun g => g.value)).orElse (fun _ => item.link) with
  | none => rw [hident] at h; cases h
  | some ident =>
    rw [hident] at h
    obtain rfl : _ = e := Option.some.inj h
    refine ⟨rfl, ?_, ?_, rfl, ?_⟩
    · intro h0; simp [h0, Option.orElse]
    · intro c h0; simp [h0, Option.orElse]
    · simp only [find_image_eq_find]

/-- Witness for C7's amended theorem at `item_rich`. -/
theorem c7_content_image_rule_witness :
    entry_rich.content = item_rich.content_encoded.orElse (fun _ => item_rich.content)
    ∧ entry_rich.summary = item_rich.description
    ∧ entry_rich.content = some [66]
    ∧ entry_rich.image
        = ((item_rich.media.find? (fun m => m.url.isSome && media_is_image m)).bind
            MediaContent.url).map Image.mk := by
  have h := c7_content_image_rule 1 item_rich 0 entry_rich (by decide)
  exact ⟨h.1, h.2.2.2.1, h.2.2.1 [66] (by decide), h.2.2.2.2⟩

/-- Claim C6: `get_entries` pagination is 1-based with `page ≤ 1` clamped to
page 1; the result is `take per_page` of the reverse scan after dropping
`per_page * (page - 1)` elements; pages beyond the data yield the empty list
(the function is total, so no error is possible); and no page exceeds
`per_page` entries. -/
theorem c6_get_entries_pagination (s : Repo) (page per_page : Nat) (tags : List ByteStr) :
    (page ≤ 1 → s.get_entries page per_page tags = s.get_entries 1 per_page tags)
    ∧ s.get_entries page per_page tags
        = ((entry_scan s tags).drop (per_page * (max page 1 - 1))).take per_page
    ∧ ((entry_scan s tags).length ≤ per_page * (max page 1 - 1) →
        s.get_entries page per_page tags = [])
    ∧ (s.get_entries page per_page tags).length ≤ per_page := by
  have hscan : ∀ p : Nat, s.get_entries p per_page tags
      = ((entry_scan s tags).drop (per_page * (max p 1 - 1))).take per_page := by
    intro p
    unfold Repo.get_entries entry_scan
    cases h : tags.isEmpty <;> simp [h]
  refine ⟨?_, hscan page, ?_, ?_⟩
  · intro hp
    have hmax : max page 1 = max 1 1 := by omega
    rw [hscan page, hscan 1, hmax]
  · intro h
    rw [hscan page, List.drop_eq_nil_of_le h, List.take_nil]
  · rw [hscan page]
    exact List.length_take_le ..

/-- Witness for C6 on a one-entry repository: page 0 equals page 1 and a page
past the data is empty. -/
theorem c6_get_entries_pagination_witness :
    repo1.get_entries 0 2 [] = repo1.get_entries 1 2 []
    ∧ repo1.get_entries 5 2 [] = []
    ∧ (repo1.get_entries 1 2 []).length ≤ 2 := by
  have h0 := c6_get_entries_pagination repo1 0 2 []
  have h5 := c6_get_entries_pagination repo1 5 2 []
  have h1 := c6_get_entries_pagination repo1 1 2 []
  exact ⟨h0.1 (by decide), h5.2.2.1 (by decide), h1.2.2.2⟩

/-- Claim C8: in the result loop of `refresh_all_feeds` every awaited outcome
is handled independently: a failed fetch/parse contributes nothing and does
not prevent ingestion of the remaining feeds — deleting a failure from the
result list leaves the final state unchanged, and processing decomposes
sequentially over the successes. -/
theorem c8_refresh_partial_failure (s : Repo) (pre post : List FetchOutcome) (now : Int) :
    refresh_all_feeds s (pre ++ FetchOutcome.fetchFailed :: post) now
      = refresh_all_feeds s (pre ++ post) now
    ∧ refresh_all_feeds s (pre ++ post) now
      = refresh_all_feeds (refresh_all_feeds s pre now) post now := by
  constructor
  · unfold refresh_all_feeds
    rw [List.foldl_append, List.foldl_append, List.foldl_cons]
  · unfold refresh_all_feeds
    rw [List.foldl_append]

/-- Claim C10: `get_starred_entries` resolves the page window of starred ids
(reverse key order, then skip/take) against `entries`, and silently drops any
id whose entry row is gone: after removing one entry row, the result is the
window's resolutions with that id skipped; the result never exceeds the
window, which never exceeds `per_page`.  The function is total, so a dangling
id can never produce an error. -/
theorem c10_get_starred_orphan (s : Repo) (page per_page k : Nat)
    (hs : SortedKeys s.entries) :
    Repo.get_starred_entries { s with entries := tree_remove k s.entries } page per_page
      = (starred_window s page per_page).filterMap
          (fun k' => if k' = k then none else tree_get k' s.entries)
    ∧ (Repo.get_starred_entries s page per_page).length
        ≤ (starred_window s page per_page).length
    ∧ (starred_window s page per_page).length ≤ per_page := by
  have hfun : (fun k' => tree_get k' (tree_remove k s.entries))
      = fun k' => if k' = k then (none : Option Entry) else tree_get k' s.entries := by
    funext k'
    by_cases h : k' = k
    · subst h; simp [tree_get_remove_self k' s.entries hs]
    · simp [h, tree_get_remove_ne k k' h]
  refine ⟨?_, ?_, ?_⟩
  · unfold Repo.get_starred_entries starred_window
    rw [hfun]
  · unfold Repo.get_starred_entries starred_window
    exact List.length_filterMap_le ..
  · unfold starred_window
    exact List.length_take_le ..

/-- Witness for C10: repository with entries 5 and 6 both starred; removing
entry row 6 leaves `get_starred_entries` returning just entry 5. -/
theorem c10_get_starred_orphan_witness :
    Repo.get_starred_entries { repo2 with entries := tree_remove 6 repo2.entries } 1 10
      = [entry0]
    ∧ (Repo.get_starred_entries repo2 1 10).length ≤ 10 := by
  have h := c10_get_starred_orphan repo2 1 10 6 (by rw [SortedKeys]; decide)
  refine ⟨?_, le_trans h.2.1 h.2.2⟩
  rw [h.1]
  decide

end Grunt
